import Mathlib

/-!
Verification of the cells binary codec layer: the order-preserving number
codec (src/common/cells_utils/src/codec/number.rs), the status-code bit
register (src/common/api_version/src/status_code.rs) and the raw value
format (src/common/api_version/src/lib.rs).

Byte strings are modelled as lists of naturals (each byte < 256).  Machine
integers are modelled as Nat (unsigned) and Int (signed) with explicit
reductions modulo 2 ^ w where the Rust code relies on the fixed width.
Floating point values are modelled by their IEEE-754 bit patterns (a Nat
below 2 ^ 64 or 2 ^ 32), since the codec only ever manipulates the bit
pattern (to_bits / from_bits / the sign bit).
-/

namespace Cells

/-! ## Number codec: src/common/cells_utils/src/codec/number.rs -/

/-- Embedding of the constant SIGN_MARK: u64 = 0x8000000000000000. -/
def SIGN_MARK : Nat := 0x8000000000000000

/-- Embedding of the constant U64_SIZE = size_of u64 = 8. -/
def U64_SIZE : Nat := 8

/-- Reinterpretation of an arbitrary-width integer as u64 (the Rust cast
v as u64): the value modulo 2 ^ 64, as a Nat. -/
def toU64 (v : Int) : Nat := (v % (2 ^ 64 : Nat)).toNat

/-- Reinterpretation of a Nat bit pattern as i64 (the Rust cast u as i64):
the low 64 bits, signed. -/
def toI64 (n : Nat) : Int :=
  if n % 2 ^ 64 < 2 ^ 63 then (n % 2 ^ 64 : Nat) else (n % 2 ^ 64 : Nat) - 2 ^ 64

/-- Reinterpretation of a Nat bit pattern as i32. -/
def toI32 (n : Nat) : Int :=
  if n % 2 ^ 32 < 2 ^ 31 then (n % 2 ^ 32 : Nat) else (n % 2 ^ 32 : Nat) - 2 ^ 32

/-- Reinterpretation of a Nat bit pattern as i16. -/
def toI16 (n : Nat) : Int :=
  if n % 2 ^ 16 < 2 ^ 15 then (n % 2 ^ 16 : Nat) else (n % 2 ^ 16 : Nat) - 2 ^ 16

/-- Bitwise complement on u64 (the Rust operator !u at type u64). -/
def not64 (u : Nat) : Nat := u ^^^ (2 ^ 64 - 1)

/-- Embedding of order_encode_i64: v as u64 XOR SIGN_MARK. -/
def order_encode_i64 (v : Int) : Nat := toU64 v ^^^ SIGN_MARK

/-- Embedding of order_decode_i64: (u XOR SIGN_MARK) as i64. -/
def order_decode_i64 (u : Nat) : Int := toI64 (u ^^^ SIGN_MARK)

/-- Rust f64::is_sign_positive on a 64-bit pattern: the sign bit (bit 63)
is clear. -/
def is_sign_positive (u : Nat) : Bool := !(u.testBit 63)

/-- Embedding of order_encode_f64, acting on the IEEE-754 bit pattern u
(the result of v.to_bits()): if the sign bit is clear, set the top bit,
otherwise complement the whole pattern. -/
def order_encode_f64 (u : Nat) : Nat :=
  if is_sign_positive u then u ||| SIGN_MARK else not64 u

/-- Embedding of order_decode_f64, producing the IEEE-754 bit pattern
handed to f64::from_bits. -/
def order_decode_f64 (u : Nat) : Nat :=
  if u &&& SIGN_MARK > 0 then u &&& not64 SIGN_MARK else not64 u

/-- Big-endian byte string of the low n bytes of v (most significant
first); embedding of byteorder BigEndian writes of an n-byte integer. -/
def be_bytes : Nat → Nat → List Nat
  | 0, _ => []
  | n + 1, v => v / 256 ^ n % 256 :: be_bytes n (v % 256 ^ n)

/-- Little-endian byte string of the low n bytes of v (least significant
first); embedding of byteorder LittleEndian writes. -/
def le_bytes : Nat → Nat → List Nat
  | 0, _ => []
  | n + 1, v => v % 256 :: le_bytes n (v / 256)

/-- Value of a big-endian byte string (embedding of BigEndian::read_uN). -/
def from_be_bytes (l : List Nat) : Nat := l.foldl (fun acc b => acc * 256 + b) 0

/-- Value of a little-endian byte string (embedding of
LittleEndian::read_uN). -/
def from_le_bytes (l : List Nat) : Nat := l.foldr (fun b acc => b + 256 * acc) 0

/-- Embedding of NumberEncoder::encode_u64: the 8 bytes the method appends
to the sink (writes into a Vec sink never fail). -/
def encode_u64 (v : Nat) : List Nat := be_bytes 8 v

/-- Embedding of NumberEncoder::encode_i64: order transform, then u64. -/
def encode_i64 (v : Int) : List Nat := encode_u64 (order_encode_i64 v)

/-- Embedding of NumberEncoder::encode_f64 on the bit pattern of f. -/
def encode_f64 (u : Nat) : List Nat := encode_u64 (order_encode_f64 u)

/-- Embedding of NumberEncoder::encode_u32 (big-endian). -/
def encode_u32 (v : Nat) : List Nat := be_bytes 4 v

/-- Embedding of NumberEncoder::encode_i32 (little-endian, no order
transform). -/
def encode_i32 (v : Int) : List Nat := le_bytes 4 (v % (2 ^ 32 : Nat)).toNat

/-- Embedding of NumberEncoder::encode_f32 on the bit pattern of v
(little-endian, no order transform). -/
def encode_f32 (u : Nat) : List Nat := le_bytes 4 u

/-- Embedding of NumberEncoder::encode_u16 (big-endian). -/
def encode_u16 (v : Nat) : List Nat := be_bytes 2 v

/-- Embedding of NumberEncoder::encode_i16 (little-endian, no order
transform). -/
def encode_i16 (v : Int) : List Nat := le_bytes 2 (v % (2 ^ 16 : Nat)).toNat

/-- Embedding of read_num_bytes: on a cursor (modelled as the remaining
byte list) with at least size bytes, apply f to the first size bytes and
advance the cursor; otherwise fail with EncoderUnexpectedEOF (none). -/
def read_num_bytes {α : Type} (size : Nat) (data : List Nat) (f : List Nat → α) :
    Option (α × List Nat) :=
  if size ≤ data.length then some (f (data.take size), data.drop size) else none

/-- Embedding of decode_u64. -/
def decode_u64 (data : List Nat) : Option (Nat × List Nat) :=
  read_num_bytes 8 data from_be_bytes

/-- Embedding of decode_i64. -/
def decode_i64 (data : List Nat) : Option (Int × List Nat) :=
  (decode_u64 data).map (fun p => (order_decode_i64 p.1, p.2))

/-- Embedding of decode_f64 (returning the decoded bit pattern). -/
def decode_f64 (data : List Nat) : Option (Nat × List Nat) :=
  (decode_u64 data).map (fun p => (order_decode_f64 p.1, p.2))

/-- Embedding of decode_u32. -/
def decode_u32 (data : List Nat) : Option (Nat × List Nat) :=
  read_num_bytes 4 data from_be_bytes

/-- Embedding of decode_i32 (LittleEndian::read_i32). -/
def decode_i32 (data : List Nat) : Option (Int × List Nat) :=
  read_num_bytes 4 data (fun l => toI32 (from_le_bytes l))

/-- Embedding of decode_f32 (LittleEndian::read_f32, returning the decoded
bit pattern). -/
def decode_f32 (data : List Nat) : Option (Nat × List Nat) :=
  read_num_bytes 4 data from_le_bytes

/-- Embedding of decode_u16. -/
def decode_u16 (data : List Nat) : Option (Nat × List Nat) :=
  read_num_bytes 2 data from_be_bytes

/-- Embedding of decode_i16 (LittleEndian::read_i16). -/
def decode_i16 (data : List Nat) : Option (Int × List Nat) :=
  read_num_bytes 2 data (fun l => toI16 (from_le_bytes l))

/-- Strict lexicographic order on byte strings, unsigned bytewise (the
order memcmp induces). -/
def lexLt : List Nat → List Nat → Bool
  | _, [] => false
  | [], _ :: _ => true
  | a :: as, b :: bs => decide (a < b) || (a == b && lexLt as bs)

/-- Sign bit of an IEEE-754 f64 bit pattern (0 or 1 for patterns below
2 ^ 64). -/
def f64_sign (u : Nat) : Nat := u / 2 ^ 63

/-- Exponent-and-mantissa magnitude bits of an IEEE-754 f64 bit pattern. -/
def f64_mag (u : Nat) : Nat := u % 2 ^ 63

/-- Modelled from IEEE-754 (the boundary semantics of the Rust f64 type,
not repository code): a pattern is NaN when its 11 exponent bits are all
ones and its 52 mantissa bits are not all zero. -/
def f64_isNaN (u : Nat) : Bool := f64_mag u / 2 ^ 52 == 2047 && f64_mag u % 2 ^ 52 != 0

/-- Modelled from IEEE-754 (the boundary semantics of the Rust f32 type,
not repository code): a 32-bit pattern is NaN when its 8 exponent bits are
all ones and its 23 mantissa bits are not all zero. -/
def f32_isNaN (u : Nat) : Bool := u % 2 ^ 31 / 2 ^ 23 == 255 && u % 2 ^ 31 % 2 ^ 23 != 0

/-- Modelled from IEEE-754 (the boundary semantics of the Rust f64
comparison operator, not repository code): strict less-than on two
non-NaN bit patterns.  Two non-negative values compare by their magnitude
bits; two negative values compare by reversed magnitude; a negative value
is below every non-negative value except that the two zeros are equal. -/
def f64_lt (a b : Nat) : Bool :=
  if f64_sign a = 1 then
    if f64_sign b = 1 then decide (f64_mag b < f64_mag a)
    else !(f64_mag a == 0 && f64_mag b == 0)
  else
    if f64_sign b = 1 then false
    else decide (f64_mag a < f64_mag b)

/-! ## Status code: src/common/api_version/src/status_code.rs

A StatusCode is a bitflags wrapper around u64; it is modelled by its bit
pattern, a Nat (below 2 ^ 64 wherever the width matters). -/

/-- Embedding of StatusCode::SYSTEM_STATUS_MASK. -/
def SYSTEM_STATUS_MASK : Nat := 0xffffffff00000000

/-- Embedding of StatusCode::USER_STATUS_MASK. -/
def USER_STATUS_MASK : Nat := 0x00000000ffffffff

/-- Embedding of StatusCode::IS_ERROR. -/
def IS_ERROR : Nat := 0x8000000000000000

/-- Embedding of StatusCode::IS_UNCERTAIN. -/
def IS_UNCERTAIN : Nat := 0x4000000000000000

/-- Embedding of StatusCode::GOOD. -/
def GOOD : Nat := 0

/-- Modelled from the spec: the deletion (tombstone) flag
StatusCode::IS_TOMBSTONE is referenced by the raw value format but its
definition is missing from src/; the spec places the named lifecycle flags
in the system segment (high bits), so it is modelled as a single high bit
distinct from IS_ERROR and IS_UNCERTAIN. -/
def IS_TOMBSTONE : Nat := 0x2000000000000000

/-- Embedding of bitflags contains: all bits of the flag are set. -/
def contains (s flag : Nat) : Bool := s &&& flag == flag

/-- Embedding of bitflags insert: bitwise or. -/
def insert (s flag : Nat) : Nat := s ||| flag

/-- Embedding of StatusCode::user_status. -/
def user_status (s : Nat) : Nat := s &&& USER_STATUS_MASK

/-- Embedding of StatusCode::system_status. -/
def system_status (s : Nat) : Nat := s &&& SYSTEM_STATUS_MASK

/-- Embedding of StatusCode::is_bad. -/
def is_bad (s : Nat) : Bool := contains s IS_ERROR

/-- Embedding of StatusCode::is_uncertain. -/
def is_uncertain (s : Nat) : Bool := contains s IS_UNCERTAIN

/-- Embedding of StatusCode::is_good. -/
def is_good (s : Nat) : Bool := !is_bad s && !is_uncertain s

/-- Modelled from the spec: StatusCode::is_tombstone is referenced by the
raw value decoder but missing from src/; per the spec it tests the
deletion flag, a single-bit containment test like the other named
predicates. -/
def is_tombstone (s : Nat) : Bool := contains s IS_TOMBSTONE

/-- Embedding of StatusCode::clear: keep only the system segment. -/
def clear (s : Nat) : Nat := s &&& SYSTEM_STATUS_MASK

/-! ## Raw value format: src/common/api_version/src/lib.rs -/

/-- Embedding of RawValue.  The payload is a byte list (both the borrowed
and the owned Rust payload types erase to this); the status register is
its bit pattern. -/
structure RawValue where
  user_value : List Nat
  ts : Option Nat
  status : Nat
  tombstone : Bool
deriving DecidableEq

/-- Embedding of RawValue::is_valid. -/
def RawValue.is_valid (v : RawValue) : Bool := !v.tombstone

/-- Outcome of decode_raw_value: a decoded value, the Rust None result, or
a panic from an out-of-bounds slice index. -/
inductive DecodeResult where
  | ok (rv : RawValue)
  | noValue
  | panic
deriving DecidableEq

/-- Embedding of usize::checked_sub. -/
def checked_sub (a b : Nat) : Option Nat := if b ≤ a then some (a - b) else none

/-- Embedding of Rust slice indexing bytes[lo..hi]; none models the panic
on an out-of-bounds range. -/
def getRange (bytes : List Nat) (lo hi : Nat) : Option (List Nat) :=
  if lo ≤ hi ∧ hi ≤ bytes.length then some ((bytes.drop lo).take (hi - lo)) else none

/-- Embedding of ApiV1::decode_raw_value.  The two checked_sub failures
return the Rust None (noValue); every slice index is modelled through
getRange so that an out-of-bounds index would surface as panic; the two
decode_u64 calls are wrapped in unwrap_or_default (getD 0). -/
def decode_raw_value (bytes : List Nat) : DecodeResult :=
  match checked_sub bytes.length U64_SIZE with
  | none => DecodeResult.noValue
  | some rest_len =>
    match getRange bytes rest_len bytes.length with
    | none => DecodeResult.panic
    | some status_slice =>
      let s := ((decode_u64 status_slice).map Prod.fst).getD 0
      let tombstone := if is_tombstone s then true else false
      match checked_sub rest_len U64_SIZE with
      | none => DecodeResult.noValue
      | some rest_len2 =>
        match getRange bytes rest_len2 (rest_len2 + U64_SIZE) with
        | none => DecodeResult.panic
        | some ts_slice =>
          let ts := ((decode_u64 ts_slice).map Prod.fst).getD 0
          match getRange bytes 0 rest_len2 with
          | none => DecodeResult.panic
          | some user_value =>
            DecodeResult.ok ⟨user_value, some ts, s, tombstone⟩

/-- Embedding of ApiV1::encode_raw_value (borrowed payload): start from a
fresh buffer, append the payload, the timestamp (unwrap_or_default), and
the status register with the tombstone flag folded in when the tombstone
field is set. -/
def encode_raw_value (value : RawValue) : List Nat :=
  let buf : List Nat := []
  let buf := buf ++ value.user_value
  let ts := value.ts.getD 0
  let buf := buf ++ encode_u64 ts
  let status := if value.tombstone then insert value.status IS_TOMBSTONE else value.status
  buf ++ encode_u64 status

/-- Embedding of ApiV1::encode_raw_value_owned: extend the owned payload
buffer in place with the timestamp, then the status register with the
tombstone flag folded in. -/
def encode_raw_value_owned (value : RawValue) : List Nat :=
  let buf := value.user_value
  let buf := buf ++ encode_u64 (value.ts.getD 0)
  let status := if value.tombstone then insert value.status IS_TOMBSTONE else value.status
  buf ++ encode_u64 status

/-! ## Helper lemmas on the byte-level primitives -/

lemma be_bytes_length : ∀ n v, (be_bytes n v).length = n := by
  intro n
  induction n with
  | zero => intro v; rfl
  | succ n ih => intro v; simp [be_bytes, ih]

lemma le_bytes_length : ∀ n v, (le_bytes n v).length = n := by
  intro n
  induction n with
  | zero => intro v; rfl
  | succ n ih => intro v; simp [le_bytes, ih]

lemma foldl_be_bytes : ∀ n v a,
    List.foldl (fun acc b => acc * 256 + b) a (be_bytes n v) = a * 256 ^ n + v % 256 ^ n := by
  intro n
  induction n with
  | zero => intro v a; simp [be_bytes, Nat.mod_one]
  | succ n ih =>
    intro v a
    have hm : v % 256 ^ (n + 1) = v % 256 ^ n + 256 ^ n * (v / 256 ^ n % 256) := by
      rw [pow_succ, Nat.mod_mul]
    simp only [be_bytes, List.foldl_cons]
    rw [ih, Nat.mod_mod_of_dvd _ dvd_rfl, hm]
    ring

lemma from_be_bytes_be_bytes (n v : Nat) : from_be_bytes (be_bytes n v) = v % 256 ^ n := by
  have h := foldl_be_bytes n v 0
  simpa [from_be_bytes] using h

lemma from_le_bytes_le_bytes : ∀ n v, from_le_bytes (le_bytes n v) = v % 256 ^ n := by
  intro n
  induction n with
  | zero => intro v; simp [le_bytes, from_le_bytes, Nat.mod_one]
  | succ n ih =>
    intro v
    have hp : (256 : Nat) ^ (n + 1) = 256 * 256 ^ n := by ring
    simp only [le_bytes, from_le_bytes, List.foldr_cons]
    have ihv := ih (v / 256)
    simp only [from_le_bytes] at ihv
    rw [ihv, hp, Nat.mod_mul]

lemma digit_lt_iff {B da db ra rb : Nat} (hra : ra < B) (hrb : rb < B) :
    ra + B * da < rb + B * db ↔ da < db ∨ (da = db ∧ ra < rb) := by
  constructor
  · intro h
    rcases Nat.lt_trichotomy da db with h1 | h1 | h1
    · exact Or.inl h1
    · subst h1
      exact Or.inr ⟨rfl, by exact Nat.lt_of_add_lt_add_right h⟩
    · exfalso
      have h2 : rb + B * db < ra + B * da := by
        calc rb + B * db < B + B * db := Nat.add_lt_add_right hrb (B * db)
          _ = B * (db + 1) := by ring
          _ ≤ B * da := Nat.mul_le_mul_left B h1
          _ ≤ ra + B * da := Nat.le_add_left _ _
      exact Nat.lt_irrefl _ (Nat.lt_trans h h2)
  · intro h
    rcases h with h1 | ⟨h1, h2⟩
    · calc ra + B * da < B + B * da := Nat.add_lt_add_right hra (B * da)
        _ = B * (da + 1) := by ring
        _ ≤ B * db := Nat.mul_le_mul_left B h1
        _ ≤ rb + B * db := Nat.le_add_left _ _
    · subst h1
      exact Nat.add_lt_add_right h2 (B * da)

lemma lexLt_be_bytes : ∀ n a b,
    lexLt (be_bytes n a) (be_bytes n b) = decide (a % 256 ^ n < b % 256 ^ n) := by
  intro n
  induction n with
  | zero => intro a b; simp [be_bytes, lexLt, Nat.mod_one]
  | succ n ih =>
    intro a b
    have hB : 0 < (256 : Nat) ^ n := Nat.pos_pow_of_pos n (by norm_num)
    have hma : a % 256 ^ (n + 1) = a % 256 ^ n + 256 ^ n * (a / 256 ^ n % 256) := by
      rw [pow_succ, Nat.mod_mul]
    have hmb : b % 256 ^ (n + 1) = b % 256 ^ n + 256 ^ n * (b / 256 ^ n % 256) := by
      rw [pow_succ, Nat.mod_mul]
    have hiff : a % 256 ^ (n + 1) < b % 256 ^ (n + 1) ↔
        a / 256 ^ n % 256 < b / 256 ^ n % 256 ∨
          (a / 256 ^ n % 256 = b / 256 ^ n % 256 ∧ a % 256 ^ n < b % 256 ^ n) := by
      rw [hma, hmb]
      exact digit_lt_iff (Nat.mod_lt _ hB) (Nat.mod_lt _ hB)
    simp only [be_bytes, lexLt, ih, Nat.mod_mod_of_dvd _ dvd_rfl]
    by_cases h1 : a / 256 ^ n % 256 < b / 256 ^ n % 256 <;>
      by_cases h2 : a / 256 ^ n % 256 = b / 256 ^ n % 256 <;>
        by_cases h3 : a % 256 ^ n < b % 256 ^ n <;>
          simp [h1, h2, h3, hiff]

/-! ## Bit-level lemmas: xor / or with a single high bit, complement -/

lemma xor_two_pow_of_lt {u k : Nat} (h : u < 2 ^ k) : u ^^^ 2 ^ k = 2 ^ k + u := by
  apply Nat.eq_of_testBit_eq
  intro i
  rcases Nat.lt_trichotomy i k with hik | hik | hik
  · rw [Nat.testBit_xor, Nat.testBit_two_pow_of_ne (Nat.ne_of_gt hik),
      Nat.testBit_two_pow_add_gt hik, Bool.xor_false]
  · subst hik
    rw [Nat.testBit_xor, Nat.testBit_two_pow_self, Nat.testBit_two_pow_add_eq,
      Nat.testBit_lt_two_pow h]
    rfl
  · have hpow : (2 : Nat) ^ k + 2 ^ k = 2 ^ (k + 1) := by ring
    have h2i : (2 : Nat) ^ (k + 1) ≤ 2 ^ i := Nat.pow_le_pow_right (by norm_num) hik
    have hsum : 2 ^ k + u < 2 ^ i := lt_of_lt_of_le (by omega) h2i
    have hu_i : u < 2 ^ i := lt_of_le_of_lt (Nat.le_add_left u (2 ^ k)) hsum
    rw [Nat.testBit_xor, Nat.testBit_two_pow_of_ne (Nat.ne_of_lt hik),
      Nat.testBit_lt_two_pow hu_i, Nat.testBit_lt_two_pow hsum, Bool.xor_false]

lemma xor_two_pow_of_ge {u k : Nat} (h1 : 2 ^ k ≤ u) (h2 : u < 2 ^ (k + 1)) :
    u ^^^ 2 ^ k = u - 2 ^ k := by
  have hpow : (2 : Nat) ^ (k + 1) = 2 ^ k + 2 ^ k := by ring
  have hw : u - 2 ^ k < 2 ^ k := by omega
  have h4 : (u - 2 ^ k) ^^^ 2 ^ k = u := by rw [xor_two_pow_of_lt hw]; omega
  calc u ^^^ 2 ^ k = ((u - 2 ^ k) ^^^ 2 ^ k) ^^^ 2 ^ k := by rw [h4]
    _ = (u - 2 ^ k) ^^^ (2 ^ k ^^^ 2 ^ k) := Nat.xor_assoc _ _ _
    _ = u - 2 ^ k := by rw [Nat.xor_self, Nat.xor_zero]

lemma or_two_pow_of_lt {u k : Nat} (h : u < 2 ^ k) : u ||| 2 ^ k = 2 ^ k + u := by
  have h1 := Nat.mul_add_lt_is_or h 1
  rw [Nat.mul_one] at h1
  rw [Nat.or_comm, ← h1]

lemma xor_ones : ∀ n u, u < 2 ^ n → u ^^^ (2 ^ n - 1) = 2 ^ n - 1 - u := by
  intro n
  induction n with
  | zero =>
    intro u h
    have hu : u = 0 := by omega
    subst hu
    rfl
  | succ n ih =>
    intro u h
    have h1 : 0 < (2 : Nat) ^ n := Nat.pos_pow_of_pos n (by norm_num)
    have hpow : (2 : Nat) ^ (n + 1) = 2 ^ n + 2 ^ n := by ring
    have hmask : (2 : Nat) ^ (n + 1) - 1 = (2 ^ n - 1) ^^^ 2 ^ n := by
      rw [xor_two_pow_of_lt (by omega : 2 ^ n - 1 < 2 ^ n)]
      omega
    by_cases hu : u < 2 ^ n
    · rw [hmask, ← Nat.xor_assoc, ih u hu,
        xor_two_pow_of_lt (by omega : 2 ^ n - 1 - u < 2 ^ n)]
      omega
    · have hw : u - 2 ^ n < 2 ^ n := by omega
      have hdecomp : u = (u - 2 ^ n) ^^^ 2 ^ n := by rw [xor_two_pow_of_lt hw]; omega
      have hre : ∀ a b c : Nat, (a ^^^ c) ^^^ (b ^^^ c) = a ^^^ b := by
        intro a b c
        rw [Nat.xor_comm b c, ← Nat.xor_assoc, Nat.xor_assoc a c c, Nat.xor_self, Nat.xor_zero]
      rw [hmask, hdecomp, hre, ih _ hw]
      omega

lemma SIGN_MARK_eq : SIGN_MARK = 2 ^ 63 := by norm_num [SIGN_MARK]

/-! ## Characterization of the order-preserving i64 transform -/

lemma order_encode_i64_eq {v : Int} (h1 : -(2 ^ 63) ≤ v) (h2 : v < 2 ^ 63) :
    order_encode_i64 v = (v + 2 ^ 63).toNat := by
  unfold order_encode_i64 toU64
  rw [SIGN_MARK_eq]
  by_cases hv : 0 ≤ v
  · have hm : v % ((2 ^ 64 : Nat) : Int) = v := by
      rw [Int.emod_eq_of_lt hv (by push_cast; omega)]
    rw [hm, xor_two_pow_of_lt (by omega : v.toNat < 2 ^ 63)]
    omega
  · have hm : v % ((2 ^ 64 : Nat) : Int) = v + 2 ^ 64 := by
      have h3 : v % ((2 ^ 64 : Nat) : Int) = (v + (2 ^ 64 : Nat) * 1) % ((2 ^ 64 : Nat) : Int) := by
        rw [Int.add_mul_emod_self_left]
      rw [h3, Int.emod_eq_of_lt (by push_cast; omega) (by push_cast; omega)]
      push_cast
      ring
    rw [hm, xor_two_pow_of_ge (by omega) (by omega)]
    omega

lemma order_decode_encode_i64 {v : Int} (h1 : -(2 ^ 63) ≤ v) (h2 : v < 2 ^ 63) :
    order_decode_i64 (order_encode_i64 v) = v := by
  rw [order_encode_i64_eq h1 h2]
  unfold order_decode_i64 toI64
  rw [SIGN_MARK_eq]
  by_cases hv : 0 ≤ v
  · rw [xor_two_pow_of_ge (by omega) (by omega)]
    have hlt : (v + 2 ^ 63).toNat - 2 ^ 63 < 2 ^ 64 := by omega
    rw [Nat.mod_eq_of_lt hlt, if_pos (by omega)]
    omega
  · have hx := xor_two_pow_of_lt (show (v + 2 ^ 63).toNat < 2 ^ 63 by omega)
    rw [hx]
    have hlt : 2 ^ 63 + (v + 2 ^ 63).toNat < 2 ^ 64 := by omega
    rw [Nat.mod_eq_of_lt hlt, if_neg (by omega)]
    omega

/-! ## Characterization of the order-preserving f64 transform -/

lemma testBit63_eq {u : Nat} (h : u < 2 ^ 64) : u.testBit 63 = decide (2 ^ 63 ≤ u) := by
  rw [Nat.testBit_to_div_mod, decide_eq_decide]
  omega

lemma is_sign_positive_eq {u : Nat} (h : u < 2 ^ 64) :
    is_sign_positive u = decide (u < 2 ^ 63) := by
  unfold is_sign_positive
  rw [testBit63_eq h, ← decide_not, decide_eq_decide]
  omega

lemma not64_eq {u : Nat} (h : u < 2 ^ 64) : not64 u = 2 ^ 64 - 1 - u := by
  unfold not64
  exact xor_ones 64 u h

lemma order_encode_f64_eq {u : Nat} (h : u < 2 ^ 64) :
    order_encode_f64 u = if u < 2 ^ 63 then 2 ^ 63 + u else 2 ^ 64 - 1 - u := by
  unfold order_encode_f64
  rw [is_sign_positive_eq h, SIGN_MARK_eq]
  by_cases hc : u < 2 ^ 63
  · rw [if_pos (show decide (u < 2 ^ 63) = true by simp only [decide_eq_true_eq]; exact hc), if_pos hc]
    exact or_two_pow_of_lt hc
  · rw [if_neg (show ¬decide (u < 2 ^ 63) = true by simp only [decide_eq_true_eq]; exact hc), if_neg hc]
    exact not64_eq h

lemma order_encode_f64_lt {u : Nat} (h : u < 2 ^ 64) : order_encode_f64 u < 2 ^ 64 := by
  rw [order_encode_f64_eq h]
  by_cases hc : u < 2 ^ 63
  · rw [if_pos hc]; omega
  · rw [if_neg hc]; omega

lemma order_decode_encode_f64 {u : Nat} (h : u < 2 ^ 64) :
    order_decode_f64 (order_encode_f64 u) = u := by
  rw [order_encode_f64_eq h]
  unfold order_decode_f64
  rw [SIGN_MARK_eq]
  by_cases hc : u < 2 ^ 63
  · rw [if_pos hc]
    have hm : not64 (2 ^ 63) = 2 ^ 63 - 1 := by
      rw [not64_eq (by omega)]
      omega
    have ht : (2 ^ 63 + u).testBit 63 = true := by
      rw [Nat.testBit_two_pow_add_eq, Nat.testBit_lt_two_pow hc]
      rfl
    have hbit : (2 ^ 63 + u) &&& 2 ^ 63 > 0 := by
      rw [Nat.and_two_pow, ht]
      simp
    rw [if_pos hbit, hm, Nat.and_pow_two_sub_one_eq_mod]
    omega
  · rw [if_neg hc]
    have hlt : 2 ^ 64 - 1 - u < 2 ^ 63 := by omega
    have ht : (2 ^ 64 - 1 - u).testBit 63 = false := Nat.testBit_lt_two_pow hlt
    have hbit : ¬(2 ^ 64 - 1 - u) &&& 2 ^ 63 > 0 := by
      rw [Nat.and_two_pow, ht]
      simp
    rw [if_neg hbit, not64_eq (by omega)]
    omega

/-! ## Round-trip lemmas for the fixed-width codecs -/

lemma read_num_bytes_append {α : Type} (l rest : List Nat) (f : List Nat → α) :
    read_num_bytes l.length (l ++ rest) f = some (f l, rest) := by
  unfold read_num_bytes
  rw [if_pos (by simp), List.take_left, List.drop_left]

lemma decode_u64_encode (v : Nat) (rest : List Nat) :
    decode_u64 (encode_u64 v ++ rest) = some (v % 2 ^ 64, rest) := by
  unfold decode_u64 encode_u64
  have h8 : (be_bytes 8 v).length = 8 := be_bytes_length 8 v
  have hr := read_num_bytes_append (be_bytes 8 v) rest from_be_bytes
  rw [h8] at hr
  rw [hr, from_be_bytes_be_bytes]
  norm_num

lemma u64_roundtrip {v : Nat} (h : v < 2 ^ 64) : decode_u64 (encode_u64 v) = some (v, []) := by
  have h1 := decode_u64_encode v []
  rw [List.append_nil] at h1
  rw [h1, Nat.mod_eq_of_lt h]

lemma i64_roundtrip {v : Int} (h1 : -(2 ^ 63) ≤ v) (h2 : v < 2 ^ 63) :
    decode_i64 (encode_i64 v) = some (v, []) := by
  unfold decode_i64 encode_i64
  have henc : order_encode_i64 v < 2 ^ 64 := by
    rw [order_encode_i64_eq h1 h2]
    omega
  rw [u64_roundtrip henc]
  simp only [Option.map_some']
  rw [order_decode_encode_i64 h1 h2]

lemma f64_roundtrip {u : Nat} (h : u < 2 ^ 64) :
    decode_f64 (encode_f64 u) = some (u, []) := by
  unfold decode_f64 encode_f64
  rw [u64_roundtrip (order_encode_f64_lt h)]
  simp only [Option.map_some']
  rw [order_decode_encode_f64 h]

lemma u32_roundtrip {v : Nat} (h : v < 2 ^ 32) : decode_u32 (encode_u32 v) = some (v, []) := by
  unfold decode_u32 encode_u32
  have h4 : (be_bytes 4 v).length = 4 := be_bytes_length 4 v
  have hr := read_num_bytes_append (be_bytes 4 v) [] from_be_bytes
  rw [h4, List.append_nil] at hr
  rw [hr, from_be_bytes_be_bytes, Nat.mod_eq_of_lt (by omega : v < 256 ^ 4)]

lemma u16_roundtrip {v : Nat} (h : v < 2 ^ 16) : decode_u16 (encode_u16 v) = some (v, []) := by
  unfold decode_u16 encode_u16
  have h2 : (be_bytes 2 v).length = 2 := be_bytes_length 2 v
  have hr := read_num_bytes_append (be_bytes 2 v) [] from_be_bytes
  rw [h2, List.append_nil] at hr
  rw [hr, from_be_bytes_be_bytes, Nat.mod_eq_of_lt (by omega : v < 256 ^ 2)]

lemma emod_toNat_lt (v : Int) (k : Nat) : (v % ((2 ^ k : Nat) : Int)).toNat < 2 ^ k := by
  have hp : (0 : Int) < ((2 ^ k : Nat) : Int) := by
    push_cast
    positivity
  have hlt := Int.emod_lt_of_pos v hp
  have hge := Int.emod_nonneg v (ne_of_gt hp)
  omega

lemma emod_toNat_cast (v : Int) (k : Nat) (h1 : -(2 ^ k : Int) ≤ v) (h2 : v < 2 ^ k) :
    ((v % ((2 ^ k : Nat) : Int)).toNat : Int) = if 0 ≤ v then v else v + 2 ^ k := by
  by_cases hv : 0 ≤ v
  · rw [if_pos hv, Int.emod_eq_of_lt hv (by push_cast; omega)]
    omega
  · rw [if_neg hv]
    have h3 : v % ((2 ^ k : Nat) : Int) = (v + ((2 ^ k : Nat) : Int) * 1) % ((2 ^ k : Nat) : Int) := by
      rw [Int.add_mul_emod_self_left]
    rw [h3, Int.emod_eq_of_lt (by push_cast; omega) (by push_cast; omega)]
    push_cast
    omega

lemma f32_roundtrip {u : Nat} (h : u < 2 ^ 32) : decode_f32 (encode_f32 u) = some (u, []) := by
  unfold decode_f32 encode_f32
  have h4 : (le_bytes 4 u).length = 4 := le_bytes_length 4 u
  have hr := read_num_bytes_append (le_bytes 4 u) [] from_le_bytes
  rw [h4, List.append_nil] at hr
  rw [hr, from_le_bytes_le_bytes, Nat.mod_eq_of_lt (by omega : u < 256 ^ 4)]

lemma i32_roundtrip {v : Int} (h1 : -(2 ^ 31) ≤ v) (h2 : v < 2 ^ 31) :
    decode_i32 (encode_i32 v) = some (v, []) := by
  unfold decode_i32 encode_i32
  set w := (v % ((2 ^ 32 : Nat) : Int)).toNat with hwdef
  have hwlt : w < 2 ^ 32 := emod_toNat_lt v 32
  have hwcast : (w : Int) = if 0 ≤ v then v else v + 2 ^ 32 :=
    emod_toNat_cast v 32 (by omega) (by omega)
  have hl : (le_bytes 4 w).length = 4 := le_bytes_length 4 w
  have hr := read_num_bytes_append (le_bytes 4 w) [] (fun l => toI32 (from_le_bytes l))
  rw [hl, List.append_nil] at hr
  rw [hr, from_le_bytes_le_bytes, Nat.mod_eq_of_lt (by omega : w < 256 ^ 4)]
  unfold toI32
  rw [Nat.mod_eq_of_lt hwlt]
  by_cases hv : 0 ≤ v
  · rw [if_pos hv] at hwcast
    rw [if_pos (by omega : w < 2 ^ 31), hwcast]
  · rw [if_neg hv] at hwcast
    rw [if_neg (by omega : ¬w < 2 ^ 31), hwcast]
    norm_num

lemma i16_roundtrip {v : Int} (h1 : -(2 ^ 15) ≤ v) (h2 : v < 2 ^ 15) :
    decode_i16 (encode_i16 v) = some (v, []) := by
  unfold decode_i16 encode_i16
  set w := (v % ((2 ^ 16 : Nat) : Int)).toNat with hwdef
  have hwlt : w < 2 ^ 16 := emod_toNat_lt v 16
  have hwcast : (w : Int) = if 0 ≤ v then v else v + 2 ^ 16 :=
    emod_toNat_cast v 16 (by omega) (by omega)
  have hl : (le_bytes 2 w).length = 2 := le_bytes_length 2 w
  have hr := read_num_bytes_append (le_bytes 2 w) [] (fun l => toI16 (from_le_bytes l))
  rw [hl, List.append_nil] at hr
  rw [hr, from_le_bytes_le_bytes, Nat.mod_eq_of_lt (by omega : w < 256 ^ 2)]
  unfold toI16
  rw [Nat.mod_eq_of_lt hwlt]
  by_cases hv : 0 ≤ v
  · rw [if_pos hv] at hwcast
    rw [if_pos (by omega : w < 2 ^ 15), hwcast]
  · rw [if_neg hv] at hwcast
    rw [if_neg (by omega : ¬w < 2 ^ 15), hwcast]
    norm_num

/-! ## Order preservation of the 64-bit encodings -/

lemma encode_i64_mono {a b : Int} (ha : -(2 ^ 63) ≤ a) (hab : a < b) (hb : b < 2 ^ 63) :
    lexLt (encode_i64 a) (encode_i64 b) = true := by
  unfold encode_i64 encode_u64
  rw [lexLt_be_bytes, order_encode_i64_eq ha (by omega : a < 2 ^ 63),
    order_encode_i64_eq (by omega : -(2 ^ 63) ≤ b) hb]
  simp only [decide_eq_true_eq]
  have h256 : (256 : Nat) ^ 8 = 2 ^ 64 := by norm_num
  rw [h256, Nat.mod_eq_of_lt (by omega), Nat.mod_eq_of_lt (by omega)]
  omega

lemma encode_f64_mono {a b : Nat} (ha : a < 2 ^ 64) (hb : b < 2 ^ 64)
    (hlt : f64_lt a b = true) : lexLt (encode_f64 a) (encode_f64 b) = true := by
  unfold encode_f64 encode_u64
  rw [lexLt_be_bytes]
  have h256 : (256 : Nat) ^ 8 = 2 ^ 64 := by norm_num
  rw [h256, Nat.mod_eq_of_lt (order_encode_f64_lt ha), Nat.mod_eq_of_lt (order_encode_f64_lt hb),
    order_encode_f64_eq ha, order_encode_f64_eq hb]
  simp only [decide_eq_true_eq]
  unfold f64_lt f64_sign f64_mag at hlt
  by_cases hsa : a < 2 ^ 63 <;> by_cases hsb : b < 2 ^ 63
  · rw [Nat.div_eq_of_lt hsa, Nat.div_eq_of_lt hsb] at hlt
    simp at hlt
    rw [if_pos hsa, if_pos hsb]
    omega
  · rw [Nat.div_eq_of_lt hsa, (by omega : b / 2 ^ 63 = 1)] at hlt
    simp at hlt
  · rw [(by omega : a / 2 ^ 63 = 1), Nat.div_eq_of_lt hsb] at hlt
    rw [if_neg hsa, if_pos hsb]
    omega
  · rw [(by omega : a / 2 ^ 63 = 1), (by omega : b / 2 ^ 63 = 1)] at hlt
    simp at hlt
    rw [if_neg hsa, if_neg hsb]
    omega

/-! ## Status code mask lemmas -/

lemma mask_lor : USER_STATUS_MASK ||| SYSTEM_STATUS_MASK = 2 ^ 64 - 1 := by decide

lemma mask_land : USER_STATUS_MASK &&& SYSTEM_STATUS_MASK = 0 := by decide

lemma status_or (x : Nat) (h : x < 2 ^ 64) : user_status x ||| system_status x = x := by
  unfold user_status system_status
  rw [← Nat.and_or_distrib_left, mask_lor, Nat.and_pow_two_sub_one_eq_mod,
    Nat.mod_eq_of_lt h]

lemma status_and (x : Nat) : user_status x &&& system_status x = 0 := by
  unfold user_status system_status
  rw [Nat.and_assoc, Nat.and_comm x SYSTEM_STATUS_MASK, ← Nat.and_assoc USER_STATUS_MASK,
    mask_land, Nat.zero_and, Nat.and_zero]

/-! ## Evaluation of decode_raw_value -/

lemma checked_sub_of_le {a b : Nat} (h : b ≤ a) : checked_sub a b = some (a - b) := by
  unfold checked_sub
  rw [if_pos h]

lemma checked_sub_of_lt {a b : Nat} (h : a < b) : checked_sub a b = none := by
  unfold checked_sub
  rw [if_neg (by omega)]

lemma getRange_eq {bytes : List Nat} {lo hi : Nat} (h1 : lo ≤ hi) (h2 : hi ≤ bytes.length) :
    getRange bytes lo hi = some ((bytes.drop lo).take (hi - lo)) := by
  unfold getRange
  rw [if_pos ⟨h1, h2⟩]

lemma decode_u64_full {l : List Nat} (h : l.length = 8) :
    decode_u64 l = some (from_be_bytes l, []) := by
  unfold decode_u64 read_num_bytes
  rw [if_pos (by omega),
    show l.take 8 = l from by rw [← h]; exact List.take_length l,
    show l.drop 8 = [] from by rw [← h]; exact List.drop_length l]

lemma if_bool_id : ∀ b : Bool, (if b = true then true else false) = b := by
  intro b
  cases b <;> rfl

lemma decode_raw_value_long {bytes : List Nat} (h : 16 ≤ bytes.length) :
    decode_raw_value bytes = DecodeResult.ok
      ⟨bytes.take (bytes.length - 16),
        some (from_be_bytes ((bytes.drop (bytes.length - 16)).take 8)),
        from_be_bytes (bytes.drop (bytes.length - 8)),
        is_tombstone (from_be_bytes (bytes.drop (bytes.length - 8)))⟩ := by
  have e1 : bytes.length - (bytes.length - 8) = 8 := by omega
  have e2 : bytes.length - 8 - 8 = bytes.length - 16 := by omega
  have e3 : bytes.length - 16 + 8 - (bytes.length - 16) = 8 := by omega
  have hs_full : (bytes.drop (bytes.length - 8)).take 8 = bytes.drop (bytes.length - 8) :=
    List.take_of_length_le (by simp only [List.length_drop]; omega)
  have hlen_status : (bytes.drop (bytes.length - 8)).length = 8 := by
    simp only [List.length_drop]
    omega
  have hlen_ts : ((bytes.drop (bytes.length - 16)).take 8).length = 8 := by
    simp only [List.length_take, List.length_drop]
    omega
  have g1 := getRange_eq (show bytes.length - 8 ≤ bytes.length by omega) (le_refl bytes.length)
  rw [e1, hs_full] at g1
  have g2 := getRange_eq (show bytes.length - 16 ≤ bytes.length - 16 + 8 by omega)
    (show bytes.length - 16 + 8 ≤ bytes.length by omega)
  rw [e3] at g2
  have g3 := getRange_eq (Nat.zero_le (bytes.length - 16))
    (show bytes.length - 16 ≤ bytes.length by omega)
  rw [List.drop_zero, Nat.sub_zero] at g3
  have d1 := decode_u64_full hlen_status
  have d2 := decode_u64_full hlen_ts
  simp only [decode_raw_value, U64_SIZE, checked_sub_of_le (show 8 ≤ bytes.length by omega),
    checked_sub_of_le (show 8 ≤ bytes.length - 8 by omega), e2, g1, g2, g3, d1, d2,
    Option.map_some', Option.getD_some, if_bool_id]

lemma decode_raw_value_short {bytes : List Nat} (h : bytes.length < 16) :
    decode_raw_value bytes = DecodeResult.noValue := by
  by_cases h8 : bytes.length < 8
  · simp only [decode_raw_value, U64_SIZE, checked_sub_of_lt h8]
  · have e1 : bytes.length - (bytes.length - 8) = 8 := by omega
    have hs_full : (bytes.drop (bytes.length - 8)).take 8 = bytes.drop (bytes.length - 8) :=
      List.take_of_length_le (by simp only [List.length_drop]; omega)
    have g1 := getRange_eq (show bytes.length - 8 ≤ bytes.length by omega) (le_refl bytes.length)
    rw [e1, hs_full] at g1
    simp only [decode_raw_value, U64_SIZE, checked_sub_of_le (show 8 ≤ bytes.length by omega),
      g1, checked_sub_of_lt (show bytes.length - 8 < 8 by omega)]

/-! ## Evaluation of the raw value encoders -/

lemma encode_raw_value_eq (v : RawValue) :
    encode_raw_value v = v.user_value ++ be_bytes 8 (v.ts.getD 0) ++
      be_bytes 8 (if v.tombstone then insert v.status IS_TOMBSTONE else v.status) := by
  unfold encode_raw_value encode_u64
  simp only [List.nil_append]

lemma encode_raw_value_length (v : RawValue) :
    (encode_raw_value v).length = v.user_value.length + 16 := by
  rw [encode_raw_value_eq]
  simp only [List.length_append, be_bytes_length]

lemma decode_encode_raw_value (payload : List Nat) (ts : Option Nat) (status : Nat)
    (tomb : Bool) (hts : ts.getD 0 < 2 ^ 64) (hs : status < 2 ^ 64) :
    decode_raw_value (encode_raw_value ⟨payload, ts, status, tomb⟩) = DecodeResult.ok
      ⟨payload, some (ts.getD 0), if tomb then insert status IS_TOMBSTONE else status,
        is_tombstone (if tomb then insert status IS_TOMBSTONE else status)⟩ := by
  set st := if tomb then insert status IS_TOMBSTONE else status with hst
  have hstlt : st < 2 ^ 64 := by
    rw [hst]
    by_cases htb : tomb
    · rw [if_pos htb]
      unfold insert
      exact Nat.or_lt_two_pow hs (by norm_num [IS_TOMBSTONE])
    · rw [if_neg htb]
      exact hs
  have hb : encode_raw_value ⟨payload, ts, status, tomb⟩ =
      payload ++ be_bytes 8 (ts.getD 0) ++ be_bytes 8 st := by
    rw [encode_raw_value_eq]
  rw [hb]
  have hlen : (payload ++ be_bytes 8 (ts.getD 0) ++ be_bytes 8 st).length =
      payload.length + 16 := by
    simp only [List.length_append, be_bytes_length]
  have hl1 : (payload ++ be_bytes 8 (ts.getD 0)).length = payload.length + 8 := by
    simp only [List.length_append, be_bytes_length]
  rw [decode_raw_value_long (by rw [hlen]; omega)]
  have hassoc : payload ++ be_bytes 8 (ts.getD 0) ++ be_bytes 8 st =
      payload ++ (be_bytes 8 (ts.getD 0) ++ be_bytes 8 st) := List.append_assoc _ _ _
  have f1 : (payload ++ be_bytes 8 (ts.getD 0) ++ be_bytes 8 st).take
      ((payload ++ be_bytes 8 (ts.getD 0) ++ be_bytes 8 st).length - 16) = payload := by
    rw [hlen, hassoc]
    exact List.take_left' (by omega)
  have f2 : ((payload ++ be_bytes 8 (ts.getD 0) ++ be_bytes 8 st).drop
      ((payload ++ be_bytes 8 (ts.getD 0) ++ be_bytes 8 st).length - 16)).take 8 =
      be_bytes 8 (ts.getD 0) := by
    rw [hlen, hassoc, List.drop_left' (by omega : payload.length = payload.length + 16 - 16)]
    exact List.take_left' (be_bytes_length 8 _)
  have f3 : (payload ++ be_bytes 8 (ts.getD 0) ++ be_bytes 8 st).drop
      ((payload ++ be_bytes 8 (ts.getD 0) ++ be_bytes 8 st).length - 8) = be_bytes 8 st := by
    rw [hlen]
    exact List.drop_left' (by rw [hl1]; omega)
  rw [f1, f2, f3, from_be_bytes_be_bytes, from_be_bytes_be_bytes,
    show (256 : Nat) ^ 8 = 2 ^ 64 from by norm_num, Nat.mod_eq_of_lt hts,
    Nat.mod_eq_of_lt hstlt]

/-! ## Claim theorems -/

/-- C1: for every payload byte sequence (including empty), every optional
timestamp, every status register value and every tombstone flag, decoding
the bytes produced by encode_raw_value yields Some of a RawValue whose
user_value equals the payload, whose ts equals some (ts.unwrap_or 0), and
whose status equals the input status with the tombstone flag folded in
when the tombstone was set. -/
theorem c1_raw_value_roundtrip (payload : List Nat) (ts : Option Nat) (status : Nat)
    (tomb : Bool) (hts : ts.getD 0 < 2 ^ 64) (hs : status < 2 ^ 64) :
    ∃ rv : RawValue,
      decode_raw_value (encode_raw_value ⟨payload, ts, status, tomb⟩) = DecodeResult.ok rv ∧
        rv.user_value = payload ∧ rv.ts = some (ts.getD 0) ∧
        rv.status = (if tomb then insert status IS_TOMBSTONE else status) :=
  ⟨_, decode_encode_raw_value payload ts status tomb hts hs, rfl, rfl, rfl⟩

/-- Witness for C1 at payload [1, 2], ts = none, status 5, tombstone set. -/
theorem c1_raw_value_roundtrip_witness :
    (none : Option Nat).getD 0 < 2 ^ 64 ∧ (5 : Nat) < 2 ^ 64 ∧
    ∃ rv : RawValue,
      decode_raw_value (encode_raw_value ⟨[1, 2], none, 5, true⟩) = DecodeResult.ok rv ∧
        rv.user_value = [1, 2] ∧ rv.ts = some ((none : Option Nat).getD 0) ∧
        rv.status = (if true then insert 5 IS_TOMBSTONE else 5) :=
  ⟨by decide, by decide, c1_raw_value_roundtrip [1, 2] none 5 true (by decide) (by decide)⟩

/-- C2: for every pair of signed 64-bit integers a < b, the 8 bytes of
encode_i64 a are lexicographically below those of encode_i64 b, and the
order transform maps the most negative value to the all-zero word and the
most positive value to the all-one word. -/
theorem c2_i64_order_preserving :
    (∀ a b : Int, -(2 ^ 63) ≤ a → a < b → b < 2 ^ 63 →
      lexLt (encode_i64 a) (encode_i64 b) = true) ∧
    order_encode_i64 (-(2 ^ 63)) = 0 ∧ order_encode_i64 (2 ^ 63 - 1) = 2 ^ 64 - 1 := by
  refine ⟨fun a b ha hab hb => encode_i64_mono ha hab hb, ?_, ?_⟩
  · rw [order_encode_i64_eq (le_refl _) (by norm_num)]
    norm_num
  · rw [order_encode_i64_eq (by norm_num) (by norm_num)]
    omega

/-- Witness for C2 at the pair a = -1 < b = 1. -/
theorem c2_i64_order_preserving_witness :
    -((2 : Int) ^ 63) ≤ -1 ∧ (-1 : Int) < 1 ∧ (1 : Int) < 2 ^ 63 ∧
    lexLt (encode_i64 (-1)) (encode_i64 1) = true :=
  ⟨by decide, by decide, by decide,
    c2_i64_order_preserving.1 (-1) 1 (by decide) (by decide) (by decide)⟩

/-- C3: for every pair of non-NaN 64-bit float bit patterns with a < b in
the IEEE-754 order (including the zeros and the infinities), the 8 bytes
of encode_f64 a are lexicographically below those of encode_f64 b. -/
theorem c3_f64_order_preserving (a b : Nat) (ha : a < 2 ^ 64) (hb : b < 2 ^ 64)
    (_hna : f64_isNaN a = false) (_hnb : f64_isNaN b = false) (hab : f64_lt a b = true) :
    lexLt (encode_f64 a) (encode_f64 b) = true :=
  encode_f64_mono ha hb hab

/-- Witness for C3 at the patterns of -2.0 and 1.5. -/
theorem c3_f64_order_preserving_witness :
    (0xC000000000000000 : Nat) < 2 ^ 64 ∧ (0x3FF8000000000000 : Nat) < 2 ^ 64 ∧
    f64_isNaN 0xC000000000000000 = false ∧ f64_isNaN 0x3FF8000000000000 = false ∧
    f64_lt 0xC000000000000000 0x3FF8000000000000 = true ∧
    lexLt (encode_f64 0xC000000000000000) (encode_f64 0x3FF8000000000000) = true :=
  ⟨by decide, by decide, by decide, by decide, by decide,
    c3_f64_order_preserving 0xC000000000000000 0x3FF8000000000000
      (by decide) (by decide) (by decide) (by decide) (by decide)⟩

/-- C4: for every numeric type among u16, i16, u32, i32, u64, i64, f32 and
f64, and every value of the type (the float cases stated on non-NaN bit
patterns), encoding produces exactly the fixed width of the type in bytes
and decoding those bytes returns the value. -/
theorem c4_number_roundtrip :
    (∀ v : Nat, v < 2 ^ 16 →
      decode_u16 (encode_u16 v) = some (v, []) ∧ (encode_u16 v).length = 2) ∧
    (∀ v : Int, -(2 ^ 15) ≤ v → v < 2 ^ 15 →
      decode_i16 (encode_i16 v) = some (v, []) ∧ (encode_i16 v).length = 2) ∧
    (∀ v : Nat, v < 2 ^ 32 →
      decode_u32 (encode_u32 v) = some (v, []) ∧ (encode_u32 v).length = 4) ∧
    (∀ v : Int, -(2 ^ 31) ≤ v → v < 2 ^ 31 →
      decode_i32 (encode_i32 v) = some (v, []) ∧ (encode_i32 v).length = 4) ∧
    (∀ v : Nat, v < 2 ^ 64 →
      decode_u64 (encode_u64 v) = some (v, []) ∧ (encode_u64 v).length = 8) ∧
    (∀ v : Int, -(2 ^ 63) ≤ v → v < 2 ^ 63 →
      decode_i64 (encode_i64 v) = some (v, []) ∧ (encode_i64 v).length = 8) ∧
    (∀ u : Nat, u < 2 ^ 32 → f32_isNaN u = false →
      decode_f32 (encode_f32 u) = some (u, []) ∧ (encode_f32 u).length = 4) ∧
    (∀ u : Nat, u < 2 ^ 64 → f64_isNaN u = false →
      decode_f64 (encode_f64 u) = some (u, []) ∧ (encode_f64 u).length = 8) := by
  refine ⟨fun v h => ⟨u16_roundtrip h, be_bytes_length 2 v⟩,
    fun v h1 h2 => ⟨i16_roundtrip h1 h2, le_bytes_length 2 _⟩,
    fun v h => ⟨u32_roundtrip h, be_bytes_length 4 v⟩,
    fun v h1 h2 => ⟨i32_roundtrip h1 h2, le_bytes_length 4 _⟩,
    fun v h => ⟨u64_roundtrip h, be_bytes_length 8 v⟩,
    fun v h1 h2 => ⟨i64_roundtrip h1 h2, be_bytes_length 8 _⟩,
    fun u h _ => ⟨f32_roundtrip h, le_bytes_length 4 u⟩,
    fun u h _ => ⟨f64_roundtrip h, be_bytes_length 8 _⟩⟩

/-- Witness for C4 at extreme values of each type: the maxima of u16, u32
and u64, the minima of i16, i32 and i64, and the bit patterns of the f32
positive infinity and the f64 negative infinity. -/
theorem c4_number_roundtrip_witness :
    (decode_u16 (encode_u16 65535) = some (65535, []) ∧ (encode_u16 65535).length = 2) ∧
    (decode_i16 (encode_i16 (-32768)) = some (-32768, []) ∧ (encode_i16 (-32768)).length = 2) ∧
    (decode_u32 (encode_u32 4294967295) = some (4294967295, []) ∧
      (encode_u32 4294967295).length = 4) ∧
    (decode_i32 (encode_i32 (-2147483648)) = some (-2147483648, []) ∧
      (encode_i32 (-2147483648)).length = 4) ∧
    (decode_u64 (encode_u64 18446744073709551615) = some (18446744073709551615, []) ∧
      (encode_u64 18446744073709551615).length = 8) ∧
    (decode_i64 (encode_i64 (-9223372036854775808)) = some (-9223372036854775808, []) ∧
      (encode_i64 (-9223372036854775808)).length = 8) ∧
    (decode_f32 (encode_f32 0x7F800000) = some (0x7F800000, []) ∧
      (encode_f32 0x7F800000).length = 4) ∧
    (decode_f64 (encode_f64 0xFFF0000000000000) = some (0xFFF0000000000000, []) ∧
      (encode_f64 0xFFF0000000000000).length = 8) :=
  ⟨c4_number_roundtrip.1 65535 (by decide),
    c4_number_roundtrip.2.1 (-32768) (by decide) (by decide),
    c4_number_roundtrip.2.2.1 4294967295 (by decide),
    c4_number_roundtrip.2.2.2.1 (-2147483648) (by decide) (by decide),
    c4_number_roundtrip.2.2.2.2.1 18446744073709551615 (by decide),
    c4_number_roundtrip.2.2.2.2.2.1 (-9223372036854775808) (by decide) (by decide),
    c4_number_roundtrip.2.2.2.2.2.2.1 0x7F800000 (by decide) (by decide),
    c4_number_roundtrip.2.2.2.2.2.2.2 0xFFF0000000000000 (by decide) (by decide)⟩

/-- C5: a byte string decodes to the no-value result exactly when it is
shorter than 16 bytes, and every byte string of length at least 16
decodes to Some. -/
theorem c5_short_input (bytes : List Nat) :
    (decode_raw_value bytes = DecodeResult.noValue ↔ bytes.length < 16) ∧
    (16 ≤ bytes.length → ∃ rv : RawValue, decode_raw_value bytes = DecodeResult.ok rv) := by
  constructor
  · constructor
    · intro hd
      by_contra hlen
      rw [decode_raw_value_long (by omega)] at hd
      exact DecodeResult.noConfusion hd
    · intro hlen
      exact decode_raw_value_short hlen
  · intro hlen
    exact ⟨_, decode_raw_value_long hlen⟩

/-- Witness for C5 at the all-zero byte strings of lengths 15 and 16. -/
theorem c5_short_input_witness :
    (decode_raw_value (List.replicate 15 0) = DecodeResult.noValue ↔
      (List.replicate 15 (0 : Nat)).length < 16) ∧
    (16 ≤ (List.replicate 16 (0 : Nat)).length ∧
      ∃ rv : RawValue, decode_raw_value (List.replicate 16 0) = DecodeResult.ok rv) :=
  ⟨(c5_short_input (List.replicate 15 0)).1,
    ⟨by decide, (c5_short_input (List.replicate 16 0)).2 (by decide)⟩⟩

/-- C6: the borrowed-payload and owned-payload encoders produce byte
identical output on the same logical value, of length equal to the
payload length plus 16. -/
theorem c6_encoders_agree (v : RawValue) :
    encode_raw_value v = encode_raw_value_owned v ∧
    (encode_raw_value v).length = v.user_value.length + 16 := by
  constructor
  · unfold encode_raw_value encode_raw_value_owned
    simp only [List.nil_append]
  · exact encode_raw_value_length v

/-- C7: the user and system projections of a 64-bit status register
rejoin to the register under bitwise or and are disjoint under bitwise
and: the two masks partition the 64 bits. -/
theorem c7_mask_partition (x : Nat) (h : x < 2 ^ 64) :
    user_status x ||| system_status x = x ∧ user_status x &&& system_status x = 0 :=
  ⟨status_or x h, status_and x⟩

/-- Witness for C7 at the register 0xDEADBEEFDEADBEEF. -/
theorem c7_mask_partition_witness :
    (0xDEADBEEFDEADBEEF : Nat) < 2 ^ 64 ∧
    (user_status 0xDEADBEEFDEADBEEF ||| system_status 0xDEADBEEFDEADBEEF =
        0xDEADBEEFDEADBEEF ∧
      user_status 0xDEADBEEFDEADBEEF &&& system_status 0xDEADBEEFDEADBEEF = 0) :=
  ⟨by decide, c7_mask_partition 0xDEADBEEFDEADBEEF (by decide)⟩

/-- C8: a decoded value is invalid exactly when its decoded status
register carries the deletion (tombstone) flag. -/
theorem c8_validity (bytes : List Nat) (rv : RawValue) (hlen : 16 ≤ bytes.length)
    (hd : decode_raw_value bytes = DecodeResult.ok rv) :
    (rv.is_valid = false ↔ is_tombstone rv.status = true) := by
  rw [decode_raw_value_long hlen] at hd
  injection hd with h
  subst h
  simp only [RawValue.is_valid]
  cases htb : is_tombstone (from_be_bytes (bytes.drop (bytes.length - 8))) <;> simp

/-- Witness for C8 at a 16-byte input whose trailer carries the tombstone
flag. -/
theorem c8_validity_witness :
    16 ≤ ([0, 0, 0, 0, 0, 0, 0, 0, 0x20, 0, 0, 0, 0, 0, 0, 0] : List Nat).length ∧
    decode_raw_value [0, 0, 0, 0, 0, 0, 0, 0, 0x20, 0, 0, 0, 0, 0, 0, 0] =
      DecodeResult.ok ⟨[], some 0, 0x2000000000000000, true⟩ ∧
    ((⟨[], some 0, 0x2000000000000000, true⟩ : RawValue).is_valid = false ↔
      is_tombstone (RawValue.status ⟨[], some 0, 0x2000000000000000, true⟩) = true) :=
  ⟨by decide, by decide,
    c8_validity [0, 0, 0, 0, 0, 0, 0, 0, 0x20, 0, 0, 0, 0, 0, 0, 0]
      ⟨[], some 0, 0x2000000000000000, true⟩ (by decide) (by decide)⟩

/-- C9: clearing a status register zeroes the user segment and leaves
the system segment unchanged: no clear operation ever erases a system
bit. -/
theorem c9_clear_frame (s : Nat) :
    user_status (clear s) = 0 ∧ system_status (clear s) = system_status s := by
  constructor
  · unfold user_status clear
    rw [Nat.and_assoc, (by decide : SYSTEM_STATUS_MASK &&& USER_STATUS_MASK = 0), Nat.and_zero]
  · unfold system_status clear
    rw [Nat.and_assoc, Nat.and_self]

/-- C10: decode_raw_value never reaches an out-of-bounds slice index
(modelled as the panic result) on any input, and on every input of length
at least 16 it returns a value whose user_value is the first length minus
16 bytes, whose ts is always some, and whose trailer is read from the
last 16 bytes of the input whether or not the input came from an
encoder. -/
theorem c10_decode_total (bytes : List Nat) :
    decode_raw_value bytes ≠ DecodeResult.panic ∧
    (16 ≤ bytes.length → ∃ rv : RawValue,
      decode_raw_value bytes = DecodeResult.ok rv ∧
        rv.user_value = bytes.take (bytes.length - 16) ∧
        rv.ts = some (from_be_bytes ((bytes.drop (bytes.length - 16)).take 8)) ∧
        rv.status = from_be_bytes (bytes.drop (bytes.length - 8))) := by
  constructor
  · intro hp
    by_cases hlen : 16 ≤ bytes.length
    · rw [decode_raw_value_long hlen] at hp
      exact DecodeResult.noConfusion hp
    · rw [decode_raw_value_short (by omega)] at hp
      exact DecodeResult.noConfusion hp
  · intro hlen
    exact ⟨_, decode_raw_value_long hlen, rfl, rfl, rfl⟩

/-- Witness for C10 at a 17-byte input that no encoder produced. -/
theorem c10_decode_total_witness :
    decode_raw_value [7] ≠ DecodeResult.panic ∧
    (16 ≤ ([9, 1, 2, 3, 4, 5, 6, 7, 8, 1, 2, 3, 4, 5, 6, 7, 8] : List Nat).length ∧
      ∃ rv : RawValue,
        decode_raw_value [9, 1, 2, 3, 4, 5, 6, 7, 8, 1, 2, 3, 4, 5, 6, 7, 8] =
            DecodeResult.ok rv ∧
          rv.user_value =
            ([9, 1, 2, 3, 4, 5, 6, 7, 8, 1, 2, 3, 4, 5, 6, 7, 8] : List Nat).take
              (([9, 1, 2, 3, 4, 5, 6, 7, 8, 1, 2, 3, 4, 5, 6, 7, 8] : List Nat).length - 16) ∧
          rv.ts = some (from_be_bytes
            ((([9, 1, 2, 3, 4, 5, 6, 7, 8, 1, 2, 3, 4, 5, 6, 7, 8] : List Nat).drop
              (([9, 1, 2, 3, 4, 5, 6, 7, 8, 1, 2, 3, 4, 5, 6, 7, 8] : List Nat).length -
                16)).take 8)) ∧
          rv.status = from_be_bytes
            (([9, 1, 2, 3, 4, 5, 6, 7, 8, 1, 2, 3, 4, 5, 6, 7, 8] : List Nat).drop
              (([9, 1, 2, 3, 4, 5, 6, 7, 8, 1, 2, 3, 4, 5, 6, 7, 8] : List Nat).length - 8))) :=
  ⟨(c10_decode_total [7]).1,
    by decide,
    (c10_decode_total [9, 1, 2, 3, 4, 5, 6, 7, 8, 1, 2, 3, 4, 5, 6, 7, 8]).2 (by decide)⟩

end Cells
